import Mathlib

/-!
Shallow embedding of `src/inventory_system.py`.

The inventory store (`stock_data`) is a Python dict from item name to
integer quantity.  We embed it as an insertion-ordered association list
with (invariantly) unique keys, which is exactly the observable structure
of a Python dict.  Dynamic typing of the public operations is embedded by
a `PyVal` sum type together with the `isinstance` checks the source
performs.  File persistence is embedded by a `JVal` JSON value type; a
file read yields either "missing", "invalid JSON", or a parsed `JVal`.
-/

namespace Inventory

/-- The in-memory store: insertion-ordered list of (item, quantity). -/
abbrev Store := List (String × Int)

/-- Dynamically-typed Python values, as far as the operations inspect them.
`vbool` is separate because Python `isinstance(b, int)` is true for bools.
`vfloat` carries the rational value of the float; `vnone` stands for
`None` (or any other non-str, non-int, non-float object). -/
inductive PyVal where
  | vstr (s : String)
  | vint (i : Int)
  | vbool (b : Bool)
  | vfloat (q : Rat)
  | vnone
  deriving DecidableEq, Repr

/-- `isinstance(v, str)` in the source. -/
def pyIsStr : PyVal → Bool
  | .vstr _ => true
  | _ => false

/-- `isinstance(v, int)` in the source; true for bools as in Python. -/
def pyIsInt : PyVal → Bool
  | .vint _ => true
  | .vbool _ => true
  | _ => false

/-- The integer value of a `PyVal` that passed `pyIsInt`. -/
def pyToInt : PyVal → Int
  | .vint i => i
  | .vbool b => if b then 1 else 0
  | _ => 0

/-- The string value of a `PyVal` that passed `pyIsStr`. -/
def pyToStr : PyVal → String
  | .vstr s => s
  | _ => ""

/-- Keys of the store, in insertion order. -/
def storeKeys (s : Store) : List String := s.map Prod.fst

/-- `item in stock_data`. -/
def containsKey : Store → String → Bool
  | [], _ => false
  | p :: rest, k => p.1 == k || containsKey rest k

/-- `stock_data.get(item, 0)` / `stock_data[item]` on a present key. -/
def storeGet : Store → String → Int
  | [], _ => 0
  | p :: rest, k => if p.1 = k then p.2 else storeGet rest k

/-- `stock_data[item] = v`: update in place if present (keeping the
entry's position, as Python dicts do), else append. -/
def storeSet : Store → String → Int → Store
  | [], k, v => [(k, v)]
  | p :: rest, k, v => if p.1 = k then (k, v) :: rest else p :: storeSet rest k v

/-- `del stock_data[item]`: drop the entry for the key (the first match;
a dict has at most one). -/
def storeDel : Store → String → Store
  | [], _ => []
  | p :: rest, k => if p.1 = k then rest else p :: storeDel rest k

/-- `add_item(item, qty)` from the source: type-check `item` and `qty`,
then `stock_data[item] = stock_data.get(item, 0) + qty`.  (The `logs`
parameter and the log records are observationally irrelevant to the
store and are not modelled.) -/
def add_item (item qty : PyVal) (s : Store) : Store :=
  if pyIsStr item = false then s
  else if pyIsInt qty = false then s
  else storeSet s (pyToStr item) (storeGet s (pyToStr item) + pyToInt qty)

/-- `remove_item(item, qty)` from the source: type-check both arguments;
if the item is absent, do nothing; otherwise subtract `qty` and delete
the entry when the result is `<= 0`.  (The `except KeyError` arm is
unreachable: the key was just confirmed present.) -/
def remove_item (item qty : PyVal) (s : Store) : Store :=
  if pyIsStr item = false then s
  else if pyIsInt qty = false then s
  else if containsKey s (pyToStr item) = false then s
  else if storeGet s (pyToStr item) - pyToInt qty ≤ 0 then
    storeDel s (pyToStr item)
  else
    storeSet s (pyToStr item) (storeGet s (pyToStr item) - pyToInt qty)

/-- `get_qty(item)` from the source: 0 for a non-string argument, else
`stock_data.get(item, 0)`. -/
def get_qty (item : PyVal) (s : Store) : Int :=
  if pyIsStr item = false then 0 else storeGet s (pyToStr item)

/-- `check_low_items(threshold)` from the source: empty list for a
non-int threshold, else the names of entries with quantity strictly
below the threshold, in store (insertion) order. -/
def check_low_items (threshold : PyVal) (s : Store) : List String :=
  if pyIsInt threshold = false then []
  else (s.filter (fun p => p.2 < pyToInt threshold)).map Prod.fst

/-- One public mutating-or-querying call, with arbitrary (dynamically
typed) arguments. -/
inductive Op where
  | add (item qty : PyVal)
  | remove (item qty : PyVal)
  | query (item : PyVal)
  | low (threshold : PyVal)
  deriving DecidableEq, Repr

/-- Effect of one call on the store (`get_qty` and `check_low_items`
never write to `stock_data`). -/
def applyOp (s : Store) : Op → Store
  | .add item qty => add_item item qty s
  | .remove item qty => remove_item item qty s
  | .query _ => s
  | .low _ => s

/-- Effect of a call sequence on the store. -/
def runOps (ops : List Op) (s : Store) : Store := ops.foldl applyOp s

/-- A sequence of `add_item` calls on one item (a fold of `add_item`
over the quantity arguments). -/
def runAdds (item : String) (qtys : List Int) (s : Store) : Store :=
  qtys.foldl (fun st q => add_item (.vstr item) (.vint q) st) s

/-- The spec's invariant: every stored quantity is strictly positive. -/
def storeInv (s : Store) : Bool := s.all (fun p => decide (0 < p.2))

/-- Side condition on a call: an `add_item` call whose `qty` passes the
int check adds at least 1.  (Other calls are unconstrained.) -/
def addQtyPositive : Op → Bool
  | .add _ qty => !pyIsInt qty || decide (1 ≤ pyToInt qty)
  | _ => true

/-- JSON values as `json.load` produces them: `jint` for integer
literals, `jfloat` for non-integer numbers (carrying the rational value
of the parsed float). -/
inductive JVal where
  | jnull
  | jbool (b : Bool)
  | jint (i : Int)
  | jfloat (q : Rat)
  | jstr (s : String)
  | jarr (elems : List JVal)
  | jobj (fields : List (String × JVal))

/-- `isinstance(data, dict)`. -/
def JVal.isObj : JVal → Bool
  | .jobj _ => true
  | _ => false

/-- Python `int(f)` on a float truncates toward zero. -/
def ratTrunc (q : Rat) : Int := if q < 0 then -((-q).floor) else q.floor

/-- Digits (with single underscores allowed between digits, as Python's
`int` accepts) after the first digit, accumulating the value. -/
def parseDigitsAux : Nat → List Char → Option Nat
  | acc, [] => some acc
  | acc, c :: rest =>
    if c.isDigit then parseDigitsAux (10 * acc + (c.toNat - 48)) rest
    else if c = '_' then
      match rest with
      | [] => none
      | d :: rest2 =>
        if d.isDigit then parseDigitsAux (10 * acc + (d.toNat - 48)) rest2 else none
    else none

/-- A nonempty digit string (underscores allowed strictly between
digits), as Python's `int` accepts after sign and whitespace. -/
def parseDigits (cs : List Char) : Option Nat :=
  match cs with
  | [] => none
  | c :: rest => if c.isDigit then parseDigitsAux (c.toNat - 48) rest else none

/-- Python `int(s)` on a string: strip whitespace, optional sign, digits;
`none` when the string is not an integer literal (`ValueError`). -/
def pyIntOfString (s : String) : Option Int :=
  let cs := ((s.toList.dropWhile Char.isWhitespace).reverse.dropWhile Char.isWhitespace).reverse
  match cs with
  | '+' :: rest => (parseDigits rest).map Int.ofNat
  | '-' :: rest => (parseDigits rest).map (fun n => -(Int.ofNat n))
  | _ => (parseDigits cs).map Int.ofNat

/-- The exceptions `int(v)` can raise in `load_data`'s comprehension:
`ValueError` (bad string) is caught by the `except` clause, `TypeError`
(null / array / object value) is not. -/
inductive PyErr where
  | typeError
  | valueError
  deriving DecidableEq, Repr

/-- Python `int(v)` on a JSON-decoded value: ints pass through, bools
become 0/1, floats truncate toward zero, strings are parsed as integer
literals (`ValueError` on failure); `None`, lists and dicts raise
`TypeError`. -/
def pyIntOfJson : JVal → Except PyErr Int
  | .jint i => .ok i
  | .jbool b => .ok (if b then 1 else 0)
  | .jfloat q => .ok (ratTrunc q)
  | .jstr s =>
    match pyIntOfString s with
    | some i => .ok i
    | none => .error .valueError
  | .jnull => .error .typeError
  | .jarr _ => .error .typeError
  | .jobj _ => .error .typeError

/-- Whether `int(v)` succeeds on this JSON value. -/
def coercionOk (v : JVal) : Bool :=
  match pyIntOfJson v with
  | .ok _ => true
  | .error _ => false

/-- The integer `int(v)` yields when it succeeds (0 otherwise). -/
def coercionVal (v : JVal) : Int :=
  match pyIntOfJson v with
  | .ok i => i
  | .error _ => 0

/-- The comprehension `{str(k): int(v) for k, v in data.items()}`
evaluated left to right: the first failing `int(v)` raises. -/
def coerceVals : List (String × JVal) → Except PyErr (List (String × Int))
  | [] => .ok []
  | p :: rest =>
    match pyIntOfJson p.2 with
    | .error e => .error e
    | .ok i =>
      match coerceVals rest with
      | .error e => .error e
      | .ok tail => .ok ((p.1, i) :: tail)

/-- The first exception raised while coercing the values, if any. -/
def firstCoercionErr : List (String × JVal) → Option PyErr
  | [] => none
  | p :: rest =>
    match pyIntOfJson p.2 with
    | .error e => some e
    | .ok _ => firstCoercionErr rest

/-- Building a Python dict from key/value pairs by successive
assignment, as a dict comprehension does. -/
def dictOfPairs (l : List (String × Int)) : Store :=
  l.foldl (fun d p => storeSet d p.1 p.2) []

/-- What opening and reading the file can observe. -/
inductive FileContent where
  | missing
  | invalidJson
  | json (v : JVal)

/-- Result of `load_data`: a returned mapping, or an uncaught exception
propagating to the caller. -/
inductive LoadResult where
  | ok (m : List (String × Int))
  | raised
  deriving DecidableEq, Repr

/-- `load_data(file_name)` from the source: missing file or JSON decode
failure yields `{}` (both exceptions are caught); a non-dict top-level
value yields `{}`; a dict is rebuilt with `str`-ed keys and `int`-ed
values, where a `ValueError` from `int` is caught (yielding `{}`) but a
`TypeError` is not (it propagates).  JSON object keys are already
strings, so `str(k) = k`. -/
def load_data (f : FileContent) : LoadResult :=
  match f with
  | .missing => .ok []
  | .invalidJson => .ok []
  | .json v =>
    match v with
    | .jobj kvs =>
      match coerceVals kvs with
      | .ok m => .ok (dictOfPairs m)
      | .error .valueError => .ok []
      | .error .typeError => .raised
    | _ => .ok []

/-- `load_data` as a state transformer on the live store: its body never
writes `stock_data`, it only returns the loaded mapping. -/
def load_data_op (f : FileContent) (s : Store) : Store × LoadResult :=
  (s, load_data f)

/-- `save_data(file_name)` from the source: `json.dump(stock_data, ...)`
serializes the dict as a JSON object, entries in insertion order,
integer values as JSON integers. -/
def save_data (s : Store) : JVal :=
  .jobj (s.map (fun p => (p.1, JVal.jint p.2)))

/-- The call sequence of the demonstration `main`. -/
def mainScenario : List Op :=
  [ .add (.vstr "apple") (.vint 10)
  , .add (.vstr "banana") (.vint 2)
  , .add (.vstr "pear") (.vint 0)
  , .remove (.vstr "apple") (.vint 3)
  , .remove (.vstr "orange") (.vint 1) ]

theorem beq_comm_str (a b : String) : (a == b) = (b == a) := by
  by_cases h : a = b
  · rw [h]
  · have h2 : ¬b = a := fun e => h e.symm
    simp [h, h2]

theorem containsKey_iff_mem_keys (s : Store) (k : String) :
    containsKey s k = true ↔ k ∈ storeKeys s := by
  induction s with
  | nil => simp [containsKey, storeKeys]
  | cons p rest ih =>
    show (p.1 == k || containsKey rest k) = true ↔ k ∈ p.1 :: storeKeys rest
    rw [Bool.or_eq_true, beq_iff_eq, List.mem_cons, ih]
    exact or_congr eq_comm Iff.rfl

theorem containsKey_storeSet (s : Store) (k : String) (v : Int) (j : String) :
    containsKey (storeSet s k v) j = (containsKey s j || j == k) := by
  induction s with
  | nil =>
    show (k == j || false) = (false || j == k)
    rw [Bool.or_false, Bool.false_or, beq_comm_str]
  | cons p rest ih =>
    by_cases h : p.1 = k
    · show containsKey (if p.1 = k then (k, v) :: rest else p :: storeSet rest k v) j = _
      rw [if_pos h]
      show (k == j || containsKey rest j) = (p.1 == j || containsKey rest j || j == k)
      rw [h, beq_comm_str j k]
      cases k == j <;> cases containsKey rest j <;> rfl
    · show containsKey (if p.1 = k then (k, v) :: rest else p :: storeSet rest k v) j = _
      rw [if_neg h]
      show (p.1 == j || containsKey (storeSet rest k v) j) = (p.1 == j || containsKey rest j || j == k)
      rw [ih, Bool.or_assoc]

theorem storeGet_storeSet_self (s : Store) (k : String) (v : Int) :
    storeGet (storeSet s k v) k = v := by
  induction s with
  | nil => simp [storeSet, storeGet]
  | cons p rest ih =>
    by_cases h : p.1 = k
    · simp [storeSet, h, storeGet]
    · simp [storeSet, h, storeGet, ih]

theorem storeSet_of_not_contains (s : Store) (k : String) (v : Int)
    (h : containsKey s k = false) : storeSet s k v = s ++ [(k, v)] := by
  induction s with
  | nil => simp [storeSet]
  | cons p rest ih =>
    simp [containsKey] at h
    simp [storeSet, h.1, ih h.2]

theorem mem_storeSet (s : Store) (k : String) (v : Int) (p : String × Int)
    (h : p ∈ storeSet s k v) : p ∈ s ∨ p = (k, v) := by
  induction s with
  | nil => simp [storeSet] at h; simp [h]
  | cons q rest ih =>
    by_cases hq : q.1 = k
    · simp [storeSet, hq] at h
      rcases h with h | h
      · right; simp [h]
      · left; simp [h]
    · simp [storeSet, hq] at h
      rcases h with h | h
      · left; simp [h]
      · rcases ih h with h2 | h2
        · left; simp [h2]
        · right; exact h2

theorem mem_storeDel (s : Store) (k : String) (p : String × Int)
    (h : p ∈ storeDel s k) : p ∈ s := by
  induction s with
  | nil => simp [storeDel] at h
  | cons q rest ih =>
    by_cases hq : q.1 = k
    · simp [storeDel, hq] at h
      simp [h]
    · simp [storeDel, hq] at h
      rcases h with h | h
      · simp [h]
      · simp [ih h]

theorem containsKey_storeDel_self (s : Store) (k : String)
    (hnd : (storeKeys s).Nodup) : containsKey (storeDel s k) k = false := by
  induction s with
  | nil => rfl
  | cons q rest ih =>
    have hnd' : q.1 ∉ storeKeys rest ∧ (storeKeys rest).Nodup := by
      rw [show storeKeys (q :: rest) = q.1 :: storeKeys rest from rfl, List.nodup_cons] at hnd
      exact hnd
    show containsKey (if q.1 = k then rest else q :: storeDel rest k) k = false
    by_cases hq : q.1 = k
    · rw [if_pos hq]
      by_contra hc
      rw [Bool.not_eq_false, containsKey_iff_mem_keys] at hc
      rw [hq] at hnd'
      exact hnd'.1 hc
    · rw [if_neg hq]
      show (q.1 == k || containsKey (storeDel rest k) k) = false
      rw [ih hnd'.2]
      simp [hq]

theorem storeInv_tail (p : String × Int) (rest : Store)
    (hinv : storeInv (p :: rest) = true) : storeInv rest = true := by
  unfold storeInv at hinv ⊢
  rw [List.all_eq_true] at hinv ⊢
  intro q hq
  exact hinv q (List.mem_cons_of_mem p hq)

theorem storeInv_get_pos (s : Store) (k : String)
    (hinv : storeInv s = true) (hmem : containsKey s k = true) :
    0 < storeGet s k := by
  induction s with
  | nil => exact absurd hmem (by simp [containsKey])
  | cons p rest ih =>
    show 0 < (if p.1 = k then p.2 else storeGet rest k)
    by_cases h : p.1 = k
    · rw [if_pos h]
      unfold storeInv at hinv
      rw [List.all_eq_true] at hinv
      simpa using hinv p (by simp)
    · rw [if_neg h]
      apply ih (storeInv_tail p rest hinv)
      have hmem' : (p.1 == k || containsKey rest k) = true := hmem
      simpa [h] using hmem'

theorem storeInv_storeSet (s : Store) (k : String) (v : Int)
    (hinv : storeInv s = true) (hv : 0 < v) : storeInv (storeSet s k v) = true := by
  unfold storeInv at hinv ⊢
  rw [List.all_eq_true] at hinv ⊢
  intro p hp
  rcases mem_storeSet s k v p hp with h | h
  · exact hinv p h
  · rw [h]
    simpa using hv

theorem storeInv_storeDel (s : Store) (k : String)
    (hinv : storeInv s = true) : storeInv (storeDel s k) = true := by
  unfold storeInv at hinv ⊢
  rw [List.all_eq_true] at hinv ⊢
  intro p hp
  exact hinv p (mem_storeDel s k p hp)

theorem storeGet_eq_zero_of_not_contains (s : Store) (k : String)
    (h : containsKey s k = false) : storeGet s k = 0 := by
  induction s with
  | nil => rfl
  | cons p rest ih =>
    simp only [containsKey, Bool.or_eq_false_iff, beq_eq_false_iff_ne, ne_eq] at h
    show (if p.1 = k then p.2 else storeGet rest k) = 0
    rw [if_neg h.1]
    exact ih h.2

theorem storeInv_add_item (s : Store) (item qty : PyVal)
    (hq : pyIsInt qty = true → 1 ≤ pyToInt qty)
    (hinv : storeInv s = true) : storeInv (add_item item qty s) = true := by
  unfold add_item
  split
  · exact hinv
  split
  · exact hinv
  next hint =>
  rw [Bool.not_eq_false] at hint
  have hq1 : 1 ≤ pyToInt qty := hq hint
  apply storeInv_storeSet _ _ _ hinv
  cases hc : containsKey s (pyToStr item) with
  | true => have := storeInv_get_pos s (pyToStr item) hinv hc; omega
  | false => have := storeGet_eq_zero_of_not_contains s (pyToStr item) hc; omega

theorem storeInv_remove_item (s : Store) (item qty : PyVal)
    (hinv : storeInv s = true) : storeInv (remove_item item qty s) = true := by
  unfold remove_item
  split
  · exact hinv
  split
  · exact hinv
  split
  · exact hinv
  split
  · exact storeInv_storeDel _ _ hinv
  next hpos =>
  exact storeInv_storeSet _ _ _ hinv (by omega)

theorem storeInv_applyOp (s : Store) (op : Op)
    (hop : addQtyPositive op = true)
    (hinv : storeInv s = true) : storeInv (applyOp s op) = true := by
  cases op with
  | add item qty =>
    apply storeInv_add_item s item qty _ hinv
    intro hint
    have h2 : (!pyIsInt qty || decide (1 ≤ pyToInt qty)) = true := hop
    rw [hint] at h2
    simpa using h2
  | remove item qty => exact storeInv_remove_item s item qty hinv
  | query _ => exact hinv
  | low _ => exact hinv

theorem storeInv_runOps (ops : List Op) (s : Store)
    (hops : ops.all addQtyPositive = true)
    (hinv : storeInv s = true) : storeInv (runOps ops s) = true := by
  induction ops generalizing s with
  | nil => exact hinv
  | cons op rest ih =>
    rw [List.all_cons, Bool.and_eq_true] at hops
    exact ih (applyOp s op) hops.2 (storeInv_applyOp s op hops.1 hinv)

theorem coerceVals_map_jint (s : Store) :
    coerceVals (s.map (fun p => (p.1, JVal.jint p.2))) = .ok s := by
  induction s with
  | nil => rfl
  | cons p rest ih => simp [coerceVals, pyIntOfJson, ih]

theorem foldl_storeSet_eq_append (l : List (String × Int)) : ∀ d : Store,
    (storeKeys d ++ storeKeys l).Nodup →
    l.foldl (fun d p => storeSet d p.1 p.2) d = d ++ l := by
  induction l with
  | nil => intro d _; simp
  | cons p rest ih =>
    intro d h
    have hkeys : storeKeys (p :: rest) = p.1 :: storeKeys rest := rfl
    rw [hkeys, List.nodup_append] at h
    have hnotin : containsKey d p.1 = false := by
      by_contra hc
      rw [Bool.not_eq_false, containsKey_iff_mem_keys] at hc
      exact h.2.2 hc (List.mem_cons_self p.1 (storeKeys rest))
    show rest.foldl (fun d p => storeSet d p.1 p.2) (storeSet d p.1 p.2) = d ++ p :: rest
    rw [storeSet_of_not_contains d p.1 p.2 hnotin]
    rw [ih (d ++ [(p.1, p.2)]) (by
      rw [show storeKeys (d ++ [(p.1, p.2)]) = storeKeys d ++ [p.1] from by
        simp [storeKeys]]
      rw [List.append_assoc, List.singleton_append, ← hkeys]
      rw [List.nodup_append]
      exact h)]
    simp

theorem dictOfPairs_of_nodup (l : List (String × Int))
    (h : (storeKeys l).Nodup) : dictOfPairs l = l := by
  have h2 := foldl_storeSet_eq_append l [] (by simpa [storeKeys] using h)
  simpa [dictOfPairs] using h2

theorem coerceVals_of_no_err (kvs : List (String × JVal))
    (h : firstCoercionErr kvs = none) :
    coerceVals kvs = .ok (kvs.map (fun p => (p.1, coercionVal p.2))) := by
  induction kvs with
  | nil => rfl
  | cons p rest ih =>
    cases hv : pyIntOfJson p.2 with
    | error e => simp [firstCoercionErr, hv] at h
    | ok i =>
      simp only [firstCoercionErr, hv] at h
      simp [coerceVals, hv, ih h, coercionVal]

theorem coerceVals_of_err (kvs : List (String × JVal)) (e : PyErr)
    (h : firstCoercionErr kvs = some e) : coerceVals kvs = .error e := by
  induction kvs with
  | nil => simp [firstCoercionErr] at h
  | cons p rest ih =>
    cases hv : pyIntOfJson p.2 with
    | error e2 =>
      simp only [firstCoercionErr, hv, Option.some.injEq] at h
      simp [coerceVals, hv, h]
    | ok i =>
      simp only [firstCoercionErr, hv] at h
      simp [coerceVals, hv, ih h]

theorem mem_keys_of_mem_filter_keys (s : Store) (p : String × Int → Bool) (x : String)
    (h : x ∈ (s.filter p).map Prod.fst) : x ∈ storeKeys s := by
  rw [List.mem_map] at h
  obtain ⟨q, hq, hx⟩ := h
  rw [← hx]
  exact List.mem_map_of_mem Prod.fst (List.mem_of_mem_filter hq)

theorem mem_filter_keys_iff (s : Store) (t : Int) (name : String)
    (hnd : (storeKeys s).Nodup) :
    name ∈ (s.filter (fun p => decide (p.2 < t))).map Prod.fst ↔
      containsKey s name = true ∧ storeGet s name < t := by
  induction s with
  | nil => simp [containsKey]
  | cons p rest ih =>
    have hnd' : p.1 ∉ storeKeys rest ∧ (storeKeys rest).Nodup := by
      rw [show storeKeys (p :: rest) = p.1 :: storeKeys rest from rfl, List.nodup_cons] at hnd
      exact hnd
    have hck : containsKey (p :: rest) name = (p.1 == name || containsKey rest name) := rfl
    have hget : storeGet (p :: rest) name = (if p.1 = name then p.2 else storeGet rest name) := rfl
    by_cases hname : p.1 = name
    · by_cases ht : p.2 < t
      · rw [List.filter_cons, if_pos (by simpa using ht)]
        simp [hck, hget, hname, ht]
      · rw [List.filter_cons, if_neg (by simpa using ht)]
        rw [hck, hget, if_pos hname]
        simp only [hname, beq_self_eq_true, Bool.true_or, true_and]
        constructor
        · intro hmem
          exact absurd (mem_keys_of_mem_filter_keys rest _ name hmem)
            (by rw [← hname]; exact hnd'.1)
        · intro hlt
          exact absurd hlt ht
    · rw [List.filter_cons]
      have htail : name ∈ (rest.filter (fun p => decide (p.2 < t))).map Prod.fst ↔
          containsKey rest name = true ∧ storeGet rest name < t := ih hnd'.2
      by_cases ht : p.2 < t
      · rw [if_pos (by simpa using ht)]
        simp only [List.map_cons, List.mem_cons]
        rw [hck, hget, if_neg hname]
        simp [hname, Ne.symm hname, htail]
      · rw [if_neg (by simpa using ht)]
        rw [hck, hget, if_neg hname]
        simp [hname, htail]

/-- Claim C1 as stated is false on the code: from the empty store, the
single call add_item("pear", 0) leaves "pear" present in the mapping
with stored quantity 0, so the claimed invariant fails after a sequence
of the listed operations. -/
theorem C1_invariant_counterexample :
    containsKey (runOps [Op.add (PyVal.vstr "pear") (PyVal.vint 0)] []) "pear" = true ∧
    storeGet (runOps [Op.add (PyVal.vstr "pear") (PyVal.vint 0)] []) "pear" = 0 ∧
    storeInv (runOps [Op.add (PyVal.vstr "pear") (PyVal.vint 0)] []) = false := by
  decide

/-- Claim C1, amended: after any sequence of add_item, remove_item,
get_qty and check_low_items calls in which every add_item whose qty
passes the integer check adds at least 1, starting from a store
satisfying the invariant (such as the empty store), every item present
has stored quantity strictly greater than 0; in particular remove_item
never retains an entry that dropped to 0 or below. -/
theorem C1_invariant_amended (ops : List Op) (s : Store)
    (hops : ops.all addQtyPositive = true)
    (hinv : storeInv s = true) :
    storeInv (runOps ops s) = true :=
  storeInv_runOps ops s hops hinv

theorem C1_invariant_amended_witness :
    storeInv (runOps [Op.add (PyVal.vstr "apple") (PyVal.vint 2),
      Op.remove (PyVal.vstr "apple") (PyVal.vint 1),
      Op.low (PyVal.vint 5), Op.query (PyVal.vstr "apple")] []) = true :=
  C1_invariant_amended _ _ (by decide) (by decide)

/-- Claim C2 as stated is false on the code: after the main scenario the
"pear" entry exists (with quantity 0), and check_low_items(5) returns
["banana", "pear"], not ["banana"]. -/
theorem C2_scenario_counterexample :
    containsKey (runOps mainScenario []) "pear" = true ∧
    check_low_items (PyVal.vint 5) (runOps mainScenario []) ≠ ["banana"] := by
  decide

/-- Claim C2, amended: the scenario add_item("apple",10);
add_item("banana",2); add_item("pear",0); remove_item("apple",3);
remove_item("orange",1) from the empty store yields the mapping
{"apple": 7, "banana": 2, "pear": 0} (the zero-quantity pear entry IS
created), with get_qty("apple") = 7 and
check_low_items(5) = ["banana", "pear"]. -/
theorem C2_scenario_amended :
    runOps mainScenario [] = [("apple", 7), ("banana", 2), ("pear", 0)] ∧
    get_qty (PyVal.vstr "apple") (runOps mainScenario []) = 7 ∧
    check_low_items (PyVal.vint 5) (runOps mainScenario []) = ["banana", "pear"] := by
  decide

/-- Claim C3: save_data followed by load_data on the same (successfully
written, unmodified) file returns a mapping equal to the state at save
time, keys and integer values identical. -/
theorem C3_save_load_roundtrip (s : Store) (hnd : (storeKeys s).Nodup) :
    load_data (.json (save_data s)) = .ok s := by
  have h1 : load_data (.json (save_data s)) =
      (match coerceVals (s.map (fun p => (p.1, JVal.jint p.2))) with
       | .ok m => LoadResult.ok (dictOfPairs m)
       | .error .valueError => .ok []
       | .error .typeError => .raised) := rfl
  rw [h1, coerceVals_map_jint]
  show LoadResult.ok (dictOfPairs s) = .ok s
  rw [dictOfPairs_of_nodup s hnd]

theorem C3_save_load_roundtrip_witness :
    load_data (.json (save_data [("apple", 7), ("banana", 2)])) =
      .ok [("apple", 7), ("banana", 2)] :=
  C3_save_load_roundtrip [("apple", 7), ("banana", 2)] (by decide)

/-- Claim C4: remove_item with a string item and integer qty leaves the
store unchanged when the item is absent; otherwise it subtracts qty and
deletes the entry when the result is ≤ 0 (however far it undershoots),
or stores the decreased value when it is > 0.  Consequently whenever
qty ≥ the stored quantity, the item is absent afterward. -/
theorem C4_remove_item_cases (s : Store) (item : String) (qty : Int)
    (hnd : (storeKeys s).Nodup) :
    remove_item (PyVal.vstr item) (PyVal.vint qty) s =
      (if containsKey s item then
        (if storeGet s item - qty ≤ 0 then storeDel s item
         else storeSet s item (storeGet s item - qty))
       else s) ∧
    (storeGet s item ≤ qty →
      containsKey (remove_item (PyVal.vstr item) (PyVal.vint qty) s) item = false) := by
  have hred : remove_item (PyVal.vstr item) (PyVal.vint qty) s =
      (if containsKey s item = false then s
       else if storeGet s item - qty ≤ 0 then storeDel s item
       else storeSet s item (storeGet s item - qty)) := rfl
  constructor
  · rw [hred]
    cases hc : containsKey s item <;> simp [hc]
  · intro hle
    rw [hred]
    cases hc : containsKey s item with
    | false => simp [hc]
    | true =>
      have h0 : storeGet s item - qty ≤ 0 := by omega
      simp only [hc, Bool.true_eq_false, if_neg (by simp : ¬(true = false)), if_pos h0]
      exact containsKey_storeDel_self s item hnd

theorem C4_remove_item_cases_witness :
    remove_item (PyVal.vstr "apple") (PyVal.vint 9) [("apple", 7)] =
      (if containsKey [("apple", 7)] "apple" then
        (if storeGet [("apple", 7)] "apple" - 9 ≤ 0 then storeDel [("apple", 7)] "apple"
         else storeSet [("apple", 7)] "apple" (storeGet [("apple", 7)] "apple" - 9))
       else [("apple", 7)]) ∧
    containsKey (remove_item (PyVal.vstr "apple") (PyVal.vint 9) [("apple", 7)]) "apple" = false :=
  ⟨(C4_remove_item_cases [("apple", 7)] "apple" 9 (by decide)).1,
   (C4_remove_item_cases [("apple", 7)] "apple" 9 (by decide)).2 (by decide)⟩

/-- Claim C5: add_item with a string item and integer qty sets the entry
to the existing stored value (0 when absent) plus qty, and a sequence of
add_item calls on one item accumulates the sum of the qty arguments on
top of the starting value (which is 0 when the item starts absent). -/
theorem C5_add_item_accumulates (s : Store) (item : String) (qty : Int) (qtys : List Int) :
    add_item (PyVal.vstr item) (PyVal.vint qty) s = storeSet s item (storeGet s item + qty) ∧
    storeGet (runAdds item qtys s) item = storeGet s item + qtys.sum := by
  constructor
  · rfl
  · induction qtys generalizing s with
    | nil => simp [runAdds]
    | cons q rest ih =>
      show storeGet (runAdds item rest (add_item (PyVal.vstr item) (PyVal.vint q) s)) item = _
      rw [ih (add_item (PyVal.vstr item) (PyVal.vint q) s)]
      have h2 : add_item (PyVal.vstr item) (PyVal.vint q) s =
          storeSet s item (storeGet s item + q) := rfl
      rw [h2, storeGet_storeSet_self, List.sum_cons]
      ring

/-- Claim C6: check_low_items with an integer threshold returns exactly
the names of entries with quantity strictly below the threshold (so a
quantity equal to the threshold is excluded), in store (insertion)
order; a non-integer threshold yields the empty list (and the operation
never writes the store). -/
theorem C6_check_low_items_spec (s : Store) (t : Int) (v : PyVal)
    (hnd : (storeKeys s).Nodup) (hv : pyIsInt v = false) :
    (∀ name, name ∈ check_low_items (PyVal.vint t) s ↔
      containsKey s name = true ∧ storeGet s name < t) ∧
    (check_low_items (PyVal.vint t) s).Sublist (storeKeys s) ∧
    check_low_items v s = [] := by
  have hred : check_low_items (PyVal.vint t) s =
      (s.filter (fun p => decide (p.2 < t))).map Prod.fst := rfl
  refine ⟨?_, ?_, ?_⟩
  · intro name
    rw [hred]
    exact mem_filter_keys_iff s t name hnd
  · rw [hred]
    exact List.Sublist.map Prod.fst (List.filter_sublist s)
  · simp [check_low_items, hv]

theorem C6_check_low_items_spec_witness :
    ("banana" ∈ check_low_items (PyVal.vint 5) [("apple", 7), ("banana", 2)] ↔
      containsKey [("apple", 7), ("banana", 2)] "banana" = true ∧
      storeGet [("apple", 7), ("banana", 2)] "banana" < 5) ∧
    (check_low_items (PyVal.vint 5) [("apple", 7), ("banana", 2)]).Sublist
      (storeKeys [("apple", 7), ("banana", 2)]) ∧
    check_low_items PyVal.vnone [("apple", 7), ("banana", 2)] = [] := by
  have h := C6_check_low_items_spec [("apple", 7), ("banana", 2)] 5 PyVal.vnone
    (by decide) (by decide)
  exact ⟨h.1 "banana", h.2.1, h.2.2⟩

/-- Claim C7: load_data returns the empty mapping when the file is
missing, when its content is not valid JSON, and when the top-level JSON
value is not an object; and in every case its body never writes the live
store — it only returns the loaded mapping for the caller to apply. -/
theorem C7_load_data_errors (v : JVal) (f : FileContent) (s : Store)
    (hv : v.isObj = false) :
    load_data .missing = .ok [] ∧
    load_data .invalidJson = .ok [] ∧
    load_data (.json v) = .ok [] ∧
    (load_data_op f s).1 = s := by
  refine ⟨rfl, rfl, ?_, rfl⟩
  cases v with
  | jobj kvs => simp [JVal.isObj] at hv
  | jnull => rfl
  | jbool b => rfl
  | jint i => rfl
  | jfloat q => rfl
  | jstr st => rfl
  | jarr es => rfl

theorem C7_load_data_errors_witness :
    load_data .missing = .ok [] ∧
    load_data .invalidJson = .ok [] ∧
    load_data (.json (.jarr [])) = .ok [] ∧
    (load_data_op .missing [("apple", 7)]).1 = [("apple", 7)] :=
  C7_load_data_errors (.jarr []) .missing [("apple", 7)] (by decide)

/-- Claim C8: a wrong argument type (non-string item, non-int qty,
non-int threshold) makes the operation a complete no-op on the store,
and the caller receives only the safe default (the unchanged store for
add_item/remove_item, 0 for get_qty, the empty list for
check_low_items); no exception propagates. -/
theorem C8_type_errors_noop (s : Store) (item qty t : PyVal) :
    (pyIsStr item = false ∨ pyIsInt qty = false →
      add_item item qty s = s ∧ remove_item item qty s = s) ∧
    (pyIsStr item = false → get_qty item s = 0) ∧
    (pyIsInt t = false → check_low_items t s = []) := by
  refine ⟨?_, ?_, ?_⟩
  · rintro (h | h)
    · exact ⟨by simp [add_item, h], by simp [remove_item, h]⟩
    · exact ⟨by simp [add_item, h], by simp [remove_item, h]⟩
  · intro h
    simp [get_qty, h]
  · intro h
    simp [check_low_items, h]

theorem C8_type_errors_noop_witness :
    (add_item (PyVal.vint 3) PyVal.vnone [("apple", 7)] = [("apple", 7)] ∧
     remove_item (PyVal.vint 3) PyVal.vnone [("apple", 7)] = [("apple", 7)]) ∧
    get_qty (PyVal.vint 3) [("apple", 7)] = 0 ∧
    check_low_items (PyVal.vstr "x") [("apple", 7)] = [] := by
  have h := C8_type_errors_noop [("apple", 7)] (PyVal.vint 3) PyVal.vnone (PyVal.vstr "x")
  exact ⟨h.1 (Or.inl (by decide)), h.2.1 (by decide), h.2.2 (by decide)⟩

/-- Claim C9 as stated is false on the code: a JSON object value on
which int() raises TypeError rather than ValueError — here null — is
not caught by load_data's except clause, so load_data raises instead of
returning the empty mapping. -/
theorem C9_load_coercion_counterexample :
    load_data (.json (.jobj [("a", JVal.jnull)])) = .raised ∧
    load_data (.json (.jobj [("a", JVal.jnull)])) ≠ .ok [] := by
  decide

/-- Claim C9, amended: when load_data reads a JSON object, each value is
coerced with int() (ints pass through, bools become 0/1, floats are
truncated, integer-literal strings are parsed); when every value
coerces, the rebuilt mapping is returned; when the first failing value
is a string (ValueError), the whole object is discarded and the empty
mapping returned; but when the first failing value is of a non-numeric,
non-string type such as null, an array or a nested object (TypeError),
the exception propagates to the caller instead. -/
theorem C9_load_coercion_amended (kvs : List (String × JVal)) :
    (firstCoercionErr kvs = none →
      load_data (.json (.jobj kvs)) =
        .ok (dictOfPairs (kvs.map (fun p => (p.1, coercionVal p.2))))) ∧
    (firstCoercionErr kvs = some .valueError →
      load_data (.json (.jobj kvs)) = .ok []) ∧
    (firstCoercionErr kvs = some .typeError →
      load_data (.json (.jobj kvs)) = .raised) := by
  have hred : ∀ r, coerceVals kvs = r → load_data (.json (.jobj kvs)) =
      (match r with
       | .ok m => LoadResult.ok (dictOfPairs m)
       | .error .valueError => .ok []
       | .error .typeError => .raised) := by
    intro r hr
    have h0 : load_data (.json (.jobj kvs)) =
        (match coerceVals kvs with
         | .ok m => LoadResult.ok (dictOfPairs m)
         | .error .valueError => .ok []
         | .error .typeError => .raised) := rfl
    rw [h0, hr]
  refine ⟨?_, ?_, ?_⟩
  · intro h
    exact hred _ (coerceVals_of_no_err kvs h)
  · intro h
    exact hred _ (coerceVals_of_err kvs _ h)
  · intro h
    exact hred _ (coerceVals_of_err kvs _ h)

theorem C9_load_coercion_amended_witness :
    load_data (.json (.jobj [("a", JVal.jint 4), ("b", JVal.jstr "10")])) =
      .ok (dictOfPairs ([("a", JVal.jint 4), ("b", JVal.jstr "10")].map
        (fun p => (p.1, coercionVal p.2)))) ∧
    load_data (.json (.jobj [("d", JVal.jstr "oops")])) = .ok [] ∧
    load_data (.json (.jobj [("e", JVal.jarr [])])) = .raised :=
  ⟨(C9_load_coercion_amended [("a", JVal.jint 4), ("b", JVal.jstr "10")]).1 (by decide),
   (C9_load_coercion_amended [("d", JVal.jstr "oops")]).2.1 (by decide),
   (C9_load_coercion_amended [("e", JVal.jarr [])]).2.2 (by decide)⟩

/-- Claim C10: add_item with a string item and integer qty always leaves
the item present afterward — even for a zero or negative qty and even
when the resulting stored value is ≤ 0 — and it never removes any entry:
the keys afterward are exactly the previous keys plus the added item. -/
theorem C10_add_item_keeps_entry (s : Store) (item : String) (qty : Int) (k : String) :
    containsKey (add_item (PyVal.vstr item) (PyVal.vint qty) s) k =
      (containsKey s k || k == item) := by
  have hred : add_item (PyVal.vstr item) (PyVal.vint qty) s =
      storeSet s item (storeGet s item + qty) := rfl
  rw [hred, containsKey_storeSet]

end Inventory
